import Mathlib

/-!
Verification development for the WhisperX SRT subtitle cleaner.

The development shallowly embeds the core of the repository:

* `srt_file.py`: `SRTFile.parse` and `SRTFile._parse_time`;
* `clean_whisperx_output.py`: `SrtCleaner.find_phony_subtitles`,
  `SrtCleaner.remove_junk_subtitles`,
  `SrtCleaner.prepare_cleaned_content_for_write`, and the per-file driver
  `clean_srt_file`;
* `junk_patterns.py`: the `JUNK_PATTERNS` list, compiled to a small regex
  AST matched by an executable search function;
* `shared_utils.py`: `make_cleaned_srt_filename` and `swap`.

Modelling conventions, stated once here:

* A document is modelled as its list of lines (the Python code reads one
  string and splits on a single newline; the two views are in bijection for
  newline-free lines).  A subtitle's `text` field, a multi-line Python
  string, is likewise modelled as the list of its lines.
* Python `str.strip` and friends are modelled character-wise with
  `Char.isWhitespace`; `str.lower` with `Char.toLower` (ASCII case
  folding - no settled claim depends on non-ASCII case pairs).
* Python `int(...)` is modelled by `pyInt?` (optional surrounding
  whitespace, optional sign, decimal digits; digit-group underscores and
  non-ASCII digits are not modelled - no claim depends on them).
* The floating-point second offsets are modelled as rationals; the only
  value any claim inspects is the exact default `0.0`.
* `re.search(pattern, text, re.IGNORECASE)` is modelled by `reSearch` over
  a regex AST (`RegexPat`); the nine members of `JUNK_PATTERNS` are
  transliterated pattern by pattern.  `.` matches anything but a newline,
  `$` is modelled as end-of-string (the matched texts are stripped, so the
  before-a-final-newline case of Python's `$` cannot arise).
-/

/-- Python `str.lstrip()`: drop leading whitespace characters. -/
def pyStripLeft (s : String) : String :=
  String.mk (s.data.dropWhile Char.isWhitespace)

/-- Python `str.rstrip()`: drop trailing whitespace characters. -/
def pyStripRight (s : String) : String :=
  String.mk ((s.data.reverse.dropWhile Char.isWhitespace).reverse)

/-- Python `str.strip()`: drop whitespace at both ends. -/
def pyStrip (s : String) : String :=
  pyStripRight (pyStripLeft s)

/-- A line all of whose characters are whitespace (so it is absorbed by the
block separator `\n\s*\n` of `SRTFile.parse`, and `strip`s to the empty
string). -/
def isBlank (s : String) : Bool :=
  s.data.all Char.isWhitespace

/-- Python `str.lower()` (ASCII case folding, see the header). -/
def pyLower (s : String) : String :=
  String.mk (s.data.map Char.toLower)

/-- Python substring test `sep in s`, at the character-list level. -/
def containsSeq (sep : List Char) : List Char → Bool
  | [] => sep.isEmpty
  | c :: cs => sep.isPrefixOf (c :: cs) || containsSeq sep cs

/-- The text before and after the first occurrence of `sep`, or `none` when
`sep` does not occur.  This is the step function of Python `str.split(sep)`. -/
def splitFirst? (sep : List Char) : List Char → Option (List Char × List Char)
  | [] => none
  | c :: cs =>
    if sep.isPrefixOf (c :: cs) then some ([], (c :: cs).drop sep.length)
    else
      match splitFirst? sep cs with
      | some (pre, post) => some (c :: pre, post)
      | none => none

/-- Python `str.split(sep)` for a non-empty separator, fuelled: every split
step consumes at least one character, so fuel `l.length` always suffices and
the fuelled function agrees with Python's. -/
def pySplitFuel (sep : List Char) : Nat → List Char → List (List Char)
  | 0, l => [l]
  | fuel + 1, l =>
    match splitFirst? sep l with
    | none => [l]
    | some (pre, post) => pre :: pySplitFuel sep fuel post

/-- Python `str.split(sep)` (used with the separators `" --> "`, `":"`, `","`
and `"-input"`, all non-empty). -/
def pySplit (sep : List Char) (l : List Char) : List (List Char) :=
  pySplitFuel sep l.length l

/-- The value of an ASCII decimal digit. -/
def digit? (c : Char) : Option Nat :=
  if c.isDigit then some (c.toNat - 48) else none

/-- Accumulating decimal evaluation of a digit string. -/
def digitsValAux : List Char → Nat → Option Nat
  | [], acc => some acc
  | c :: cs, acc =>
    match digit? c with
    | some d => digitsValAux cs (acc * 10 + d)
    | none => none

/-- The value of a non-empty string of decimal digits. -/
def digitsVal? : List Char → Option Nat
  | [] => none
  | cs => digitsValAux cs 0

/-- Python `int(s)` on a decimal literal: surrounding whitespace and an
optional sign are accepted, anything else raises `ValueError` (`none`). -/
def pyInt? (s : String) : Option Int :=
  match (pyStrip s).data with
  | [] => none
  | c :: cs =>
    if c = '-' then (digitsVal? cs).map (fun n => -(n : Int))
    else if c = '+' then (digitsVal? cs).map (fun n => (n : Int))
    else (digitsVal? (c :: cs)).map (fun n => (n : Int))

/-- Fuelled digit extraction (structural recursion keeps it kernel-reducible
for concrete inputs). -/
def natDigitsRevFuel : Nat → Nat → List Char
  | 0, _ => []
  | fuel + 1, n =>
    if n = 0 then [] else Nat.digitChar (n % 10) :: natDigitsRevFuel fuel (n / 10)

/-- The decimal digits of `n`, least significant first (empty for `0`): each
step divides by 10, so fuel `n` always suffices. -/
def natDigitsRev (n : Nat) : List Char :=
  natDigitsRevFuel n n

/-- Decimal rendering of a natural number. -/
def natToDecimal (n : Nat) : String :=
  if n = 0 then "0" else String.mk (natDigitsRev n).reverse

/-- Python `f"{i}"` for an integer: decimal rendering with a leading minus
sign for negatives. -/
def intToDecimal (i : Int) : String :=
  if i < 0 then "-" ++ natToDecimal i.natAbs else natToDecimal i.natAbs

/-- A regex atom, as used by the patterns of `junk_patterns.py`. -/
inductive RAtom where
  | lit (c : Char)
  | any
  | cls (cs : List Char)
  | digit
  | space
deriving DecidableEq, Repr

/-- A regex piece: an atom with its repetition suffix. -/
inductive RPiece where
  | one (a : RAtom)
  | star (a : RAtom)
  | plus (a : RAtom)
  | opt (a : RAtom)
  | rep (a : RAtom) (n : Nat)
deriving DecidableEq, Repr

/-- A compiled pattern: optional anchors around a flat piece sequence (the
nine junk patterns use no alternation and no groups). -/
structure RegexPat where
  anchorStart : Bool
  anchorEnd : Bool
  pieces : List RPiece
deriving DecidableEq, Repr

/-- Whether one character matches an atom, under `re.IGNORECASE`.  `.` does
not match a newline (no `re.DOTALL`); `\d` is an ASCII digit; `\s` is
whitespace. -/
def atomMatch (a : RAtom) (c : Char) : Bool :=
  match a with
  | .lit d => c.toLower == d.toLower
  | .any => c != '\n'
  | .cls cs => cs.any (fun d => c.toLower == d.toLower)
  | .digit => c.isDigit
  | .space => c.isWhitespace

/-- The possible remainders after `a*` consumes a prefix of `cs`. -/
def starRems (a : RAtom) : List Char → List (List Char)
  | [] => [[]]
  | c :: cs => (c :: cs) :: (if atomMatch a c then starRems a cs else [])

/-- The possible remainders after `a{n}` consumes exactly `n` characters. -/
def repRems (a : RAtom) : Nat → List Char → List (List Char)
  | 0, cs => [cs]
  | _ + 1, [] => []
  | n + 1, c :: cs => if atomMatch a c then repRems a n cs else []

/-- The possible remainders after one piece consumes a prefix of `cs`. -/
def pieceRems : RPiece → List Char → List (List Char)
  | .one _, [] => []
  | .one a, c :: cs => if atomMatch a c then [cs] else []
  | .star a, cs => starRems a cs
  | .plus _, [] => []
  | .plus a, c :: cs => if atomMatch a c then starRems a cs else []
  | .opt _, [] => [[]]
  | .opt a, c :: cs => (c :: cs) :: (if atomMatch a c then [cs] else [])
  | .rep a n, cs => repRems a n cs

/-- The possible remainders after a piece sequence consumes a prefix of
`cs`. -/
def seqRems : List RPiece → List Char → List (List Char)
  | [], cs => [cs]
  | p :: ps, cs => (pieceRems p cs).flatMap (seqRems ps)

/-- Whether the pattern matches starting exactly at the head of `cs`. -/
def matchAt (pat : RegexPat) (cs : List Char) : Bool :=
  (seqRems pat.pieces cs).any (fun rem => !pat.anchorEnd || rem.isEmpty)

/-- Whether the pattern matches starting at some position of `cs` (only the
start position when the pattern is `^`-anchored), like `re.search`. -/
def searchFrom (pat : RegexPat) : List Char → Bool
  | [] => matchAt pat []
  | c :: cs => matchAt pat (c :: cs) || (!pat.anchorStart && searchFrom pat cs)

/-- The model of `re.search(pattern, text, re.IGNORECASE)` as a Boolean (the
code only tests the result for truthiness). -/
def reSearch (pat : RegexPat) (s : String) : Bool :=
  searchFrom pat s.data

/-- One `.one (.lit c)` piece per character of `s`. -/
def litSeq (s : String) : List RPiece :=
  s.data.map (fun c => RPiece.one (RAtom.lit c))

/-- An apostrophe character (written by code point to keep source lines free
of quote-pairing ambiguity). -/
def apos : Char := Char.ofNat 39

/-- Pattern `sous.titrage.*st['"]?\s*\d+`. -/
def junkPat1 : RegexPat :=
  ⟨false, false,
    litSeq "sous" ++ [.one .any] ++ litSeq "titrage" ++ [.star .any] ++
    litSeq "st" ++ [.opt (.cls [apos, '"']), .star .space, .plus .digit]⟩

/-- Pattern `sous.titrage.*par.*amara\.org`. -/
def junkPat2 : RegexPat :=
  ⟨false, false,
    litSeq "sous" ++ [.one .any] ++ litSeq "titrage" ++ [.star .any] ++
    litSeq "par" ++ [.star .any] ++ litSeq "amara" ++ [.one (.lit '.')] ++
    litSeq "org"⟩

/-- Pattern `sous.titrage.*fr`. -/
def junkPat3 : RegexPat :=
  ⟨false, false,
    litSeq "sous" ++ [.one .any] ++ litSeq "titrage" ++ [.star .any] ++
    litSeq "fr"⟩

/-- Pattern `sous.titrage.*fr.*\d{4}`. -/
def junkPat4 : RegexPat :=
  ⟨false, false,
    litSeq "sous" ++ [.one .any] ++ litSeq "titrage" ++ [.star .any] ++
    litSeq "fr" ++ [.star .any, .rep .digit 4]⟩

/-- Pattern `^Sous-titrage Société Radio-Canada$`. -/
def junkPat5 : RegexPat :=
  ⟨true, true, litSeq "Sous-titrage Société Radio-Canada"⟩

/-- Pattern `^Sous-titrage MFP\.$`. -/
def junkPat6 : RegexPat :=
  ⟨true, true, litSeq "Sous-titrage MFP" ++ [.one (.lit '.')]⟩

/-- Pattern `^Abonnez-vous!$`. -/
def junkPat7 : RegexPat :=
  ⟨true, true, litSeq "Abonnez-vous!"⟩

/-- Pattern for the thank-you line (its apostrophe is spliced in as `apos`). -/
def junkPat8 : RegexPat :=
  ⟨true, true,
    litSeq "Merci d" ++ [.one (.lit apos)] ++ litSeq "avoir regardé cette vidéo !"⟩

/-- Pattern `^Merci à tous$`. -/
def junkPat9 : RegexPat :=
  ⟨true, true, litSeq "Merci à tous"⟩

/-- The `JUNK_PATTERNS` list of `junk_patterns.py`, in source order. -/
def JUNK_PATTERNS : List RegexPat :=
  [junkPat1, junkPat2, junkPat3, junkPat4, junkPat5, junkPat6, junkPat7,
   junkPat8, junkPat9]

/-- The `SubtitleDict` of `srt_file.py`.  `text` holds the lines of the
Python text string (joined with a newline on serialization); the second
offsets are rationals (see the header). -/
structure SubtitleDict where
  number : Int
  timestamp : String
  text : List String
  start_time : ℚ
  end_time : ℚ
deriving DecidableEq, Repr

/-- The Python value of the `text` field: its lines joined with newlines. -/
def textJoined (s : SubtitleDict) : String :=
  String.intercalate "\n" s.text

/-- Apply `f` to the last element of a list. -/
def modifyLastStr (f : String → String) : List String → List String
  | [] => []
  | [x] => [f x]
  | x :: y :: xs => x :: modifyLastStr f (y :: xs)

/-- Python `block.strip().split('\n')` at the line level: whole leading and
trailing blank lines disappear into the strip, the first surviving line
loses its leading whitespace and the last its trailing whitespace.  (When
everything is blank Python would keep one empty line while this returns no
line; both make fewer than 3 lines, so `parseBlock` skips either way.) -/
def stripBlock (b : List String) : List String :=
  let t := ((b.dropWhile isBlank).reverse.dropWhile isBlank).reverse
  match t with
  | [] => []
  | [x] => [pyStrip x]
  | x :: y :: xs => pyStripLeft x :: modifyLastStr pyStripRight (y :: xs)

/-- The result of `SRTFile._parse_time`'s `try` body: split `HH:MM:SS,mmm`
on `:` into exactly three parts, the seconds on `,` into exactly two, and
convert each part with `int`; `none` is the `ValueError` of any step. -/
def timeVal? (time_str : String) : Option ℚ :=
  let t := pyStrip time_str
  match pySplit ":".data t.data with
  | [h, m, s] =>
    match pySplit ",".data s with
    | [sec, ms] =>
      match pyInt? (String.mk h), pyInt? (String.mk m),
            pyInt? (String.mk sec), pyInt? (String.mk ms) with
      | some hh, some mm, some ss, some mss =>
        some ((hh : ℚ) * 3600 + (mm : ℚ) * 60 + (ss : ℚ) + (mss : ℚ) / 1000)
      | _, _, _, _ => none
    | _ => none
  | _ => none

/-- `SRTFile._parse_time`: the lenient time parser, defaulting to `0.0` when
the `try` body raises. -/
def parse_time (time_str : String) : ℚ :=
  (timeVal? time_str).getD 0

/-- One iteration of the block loop of `SRTFile.parse`: `none` when the
block is skipped (fewer than 3 lines; a first line `int` cannot parse; a
timing line without the `" --> "` separator, reached only for non-blank
text) or silently dropped (blank text). -/
def parseBlock (block : List String) : Option SubtitleDict :=
  let lines := stripBlock block
  if lines.length < 3 then none
  else
    match pyInt? (lines.headD "") with
    | none => none
    | some num =>
      let timestamp := pyStrip (lines.getD 1 "")
      let textLines := lines.drop 2
      if textLines.all isBlank then none
      else
        match pySplit " --> ".data timestamp.data with
        | a :: b :: _ =>
          some { number := num, timestamp := timestamp, text := textLines,
                 start_time := parse_time (String.mk a),
                 end_time := parse_time (String.mk b) }
        | _ => none

/-- Group the document lines into blocks: maximal runs of non-blank lines,
separated by one or more blank lines (the model of
`re.split(r'\n\s*\n', content.strip())`, whose leftmost-greedy matches eat
each whole blank-line run; the outer `content.strip()`'s edge effects are
subsumed by the per-block strip of `stripBlock`). -/
def splitBlocksAux : List String → List String → List (List String)
  | [], acc => if acc.isEmpty then [] else [acc.reverse]
  | l :: ls, acc =>
    if isBlank l then
      if acc.isEmpty then splitBlocksAux ls []
      else acc.reverse :: splitBlocksAux ls []
    else splitBlocksAux ls (l :: acc)

/-- The blocks of a document. -/
def splitBlocks (docLines : List String) : List (List String) :=
  splitBlocksAux docLines []

/-- `SRTFile.parse` on the lines of the document: the entries of the
parsable blocks, in source order. -/
def SRTFile.parse (docLines : List String) : List SubtitleDict :=
  (splitBlocks docLines).filterMap parseBlock

/-- The junk test applied to one subtitle by `SrtCleaner.find_phony_subtitles`:
the lowercased, stripped text matches some pattern (the inner `for`/`break`
loop is first-match-wins, which is exactly `List.any`). -/
def subtitleIsJunk (pats : List RegexPat) (s : SubtitleDict) : Bool :=
  pats.any (fun p => reSearch p (pyStrip (pyLower (textJoined s))))

/-- `SrtCleaner.find_phony_subtitles`, with the pattern list explicit (the
Python method reads the module-level `JUNK_PATTERNS`): the accumulating loop
over the subtitle sequence. -/
def find_phony_subtitles (pats : List RegexPat) (subs : List SubtitleDict) :
    List SubtitleDict :=
  subs.foldl (fun acc s => if subtitleIsJunk pats s then acc ++ [s] else acc) []

/-- The `RealSubtitlesResult` TypedDict of `clean_whisperx_output.py`. -/
structure RealSubtitlesResult where
  removed_count : Nat
  subtitles_sans_bad_output : List SubtitleDict
  empty_string_count : Nat
deriving DecidableEq, Repr

/-- The renumbering loop `for i, subtitle in enumerate(subtitles_out, 1):
subtitle['number'] = i`, started at `i`. -/
def renumberFrom (i : Int) : List SubtitleDict → List SubtitleDict
  | [] => []
  | s :: rest => { s with number := i } :: renumberFrom (i + 1) rest

/-- Whether the Python `text` value is the empty string. -/
def hasEmptyText (s : SubtitleDict) : Bool :=
  textJoined s == ""

/-- `SrtCleaner.remove_junk_subtitles`: early return on an empty flagged
list; otherwise keep the subtitles not equal (Python `not in`, dict value
equality) to a flagged one, renumber them from 1, and count the survivors
with empty text. -/
def remove_junk_subtitles (subs phony : List SubtitleDict) :
    RealSubtitlesResult :=
  if phony.isEmpty then
    { removed_count := 0, subtitles_sans_bad_output := [],
      empty_string_count := 0 }
  else
    let subtitles_out := subs.filter (fun s => !(decide (s ∈ phony)))
    let renumbered := renumberFrom 1 subtitles_out
    { removed_count := phony.length,
      subtitles_sans_bad_output := renumbered,
      empty_string_count := (renumbered.filter hasEmptyText).length }

/-- `SrtCleaner.prepare_cleaned_content_for_write` at the line level: per
subtitle its number, its timing line, its text lines and a blank separator,
with the final blank separator popped.  (Python appends the multi-line text
as one element and joins everything with a newline on write; flattening the
text into its lines yields the same written document.) -/
def prepare_cleaned_content_for_write (subs : List SubtitleDict) :
    List String :=
  let cleaned :=
    (subs.map (fun s => intToDecimal s.number :: s.timestamp :: s.text ++ [""])).flatten
  if cleaned.getLast? = some "" then cleaned.dropLast else cleaned

/-- The entries `clean_srt_file` hands to the serializer: with at least one
flagged entry it removes and renumbers; with none it takes the
`save_without_changes` path, which serializes the parsed entries as they
are. -/
def cleanedEntries (pats : List RegexPat) (entries : List SubtitleDict) :
    List SubtitleDict :=
  let phony := find_phony_subtitles pats entries
  if phony.isEmpty then entries
  else (remove_junk_subtitles entries phony).subtitles_sans_bad_output

/-- The lines `clean_srt_file` writes to the cleaned file. -/
def cleanedOutputLines (pats : List RegexPat) (entries : List SubtitleDict) :
    List String :=
  prepare_cleaned_content_for_write (cleanedEntries pats entries)

/-- The sequence numbers of an entry list. -/
def numbersOf (subs : List SubtitleDict) : List Int :=
  subs.map (fun s => s.number)

/-- A subtitle with its `number` field cleared: two subtitles agree on it
exactly when they agree on every field other than the sequence number. -/
def eraseNumber (s : SubtitleDict) : SubtitleDict :=
  { s with number := 0 }

/-- Python `s.endswith(suffix)`, at the character-list level. -/
def pyEndsWith (s suffix : String) : Bool :=
  suffix.data.isSuffixOf s.data

/-- The caller-visible result of `clean_srt_file`: the empty dict `{}` of
the two guard failures, the success dict, or the caught-exception error
dict. -/
inductive CleanResult where
  | emptyRes
  | ok (filename : String) (subtitle_count empty_string_count phony_count : Nat)
      (cleaned_file : List String)
  | err (filename message : String)
deriving DecidableEq, Repr

/-- Whether a result carries `'success': True` (only the success dict does;
the empty dict has no such key and the error dict stores `False`). -/
def successFlag : CleanResult → Bool
  | .ok _ _ _ _ _ => true
  | _ => false

/-- `clean_srt_file` on a document: the two guards (existence, `.srt`
extension) return the empty result and write nothing; otherwise the file is
parsed, classified and rewritten.  The second component is the content
written to the cleaned file (`none` when no file is created); the log-file
and console side effects are out of scope. -/
def clean_srt_file (fileExists : Bool) (input_file_path : String)
    (docLines : List String) : CleanResult × Option (List String) :=
  if !fileExists then (.emptyRes, none)
  else if !(pyEndsWith input_file_path ".srt") then (.emptyRes, none)
  else
    let entries := SRTFile.parse docLines
    let phony := find_phony_subtitles JUNK_PATTERNS entries
    if !phony.isEmpty then
      let removal := remove_junk_subtitles entries phony
      let written :=
        prepare_cleaned_content_for_write removal.subtitles_sans_bad_output
      (.ok input_file_path removal.subtitles_sans_bad_output.length
        removal.empty_string_count phony.length written, some written)
    else
      let written := prepare_cleaned_content_for_write entries
      (.ok input_file_path entries.length 0 phony.length written, some written)

/-- `shared_utils.swap`: the part of the base name before the first
`"-input"`, with the cleaned suffix appended. -/
def swap (base_name : String) : String :=
  String.mk ((pySplit "-input".data base_name.data).headD []) ++ " - cleaned.srt"

/-- `shared_utils.make_cleaned_srt_filename`. -/
def make_cleaned_srt_filename (base_name : String) : String :=
  if containsSeq "-input".data base_name.data then swap base_name
  else base_name ++ " - cleaned.srt"

/-- The mutable state of an `SRTFile` object as `SrtCleaner` sees it. -/
structure SRTFileSt where
  filepath : String
  filename : String
  subtitles : List SubtitleDict
deriving DecidableEq, Repr

/-- The loop of `SrtCleaner.find_phony_subtitles` under explicit state
passing: each iteration reads one subtitle, threads the `SRTFile` state
through, and appends to the local accumulator only. -/
def findPhonyGo (pats : List RegexPat) :
    List SubtitleDict → List SubtitleDict → SRTFileSt →
    List SubtitleDict × SRTFileSt
  | [], acc, st => (acc, st)
  | s :: rest, acc, st =>
    if subtitleIsJunk pats s then findPhonyGo pats rest (acc ++ [s]) st
    else findPhonyGo pats rest acc st

/-- `SrtCleaner.find_phony_subtitles` as a state transformer on the
`SRTFile` it reads. -/
def find_phony_subtitles_st (pats : List RegexPat) (st : SRTFileSt) :
    List SubtitleDict × SRTFileSt :=
  findPhonyGo pats st.subtitles [] st

/-- A block that `SRTFile.parse` can turn into an entry without skipping:
at least 3 stripped lines, an integer first line, and a timing line the
`" --> "` split cuts into at least two parts. -/
def blockWellFormed (b : List String) : Bool :=
  let lines := stripBlock b
  decide (3 ≤ lines.length) && (pyInt? (lines.headD "")).isSome &&
    decide (2 ≤ (pySplit " --> ".data (pyStrip (lines.getD 1 "")).data).length)

/-- Whether a block's text portion (everything after the timing line) is
non-empty after stripping. -/
def blockHasText (b : List String) : Bool :=
  !((stripBlock b).drop 2).all isBlank

/-- The entry a well-formed block parses to. -/
def blockEntry (b : List String) : SubtitleDict :=
  let lines := stripBlock b
  let timestamp := pyStrip (lines.getD 1 "")
  let parts := pySplit " --> ".data timestamp.data
  { number := (pyInt? (lines.headD "")).getD 0,
    timestamp := timestamp,
    text := lines.drop 2,
    start_time := parse_time (String.mk (parts.getD 0 [])),
    end_time := parse_time (String.mk (parts.getD 1 [])) }

/-- The timing line and text of an entry: the two fields the round-trip
property compares verbatim. -/
def tsText (e : SubtitleDict) : String × List String :=
  (e.timestamp, e.text)

/-- The serialized lines of one entry (before the blank separator). -/
def blockOf (e : SubtitleDict) : List String :=
  intToDecimal e.number :: e.timestamp :: e.text

/-- The shape invariant of every entry the parser produces, in terms of the
two fields the serializer writes back: the timing line is stripped,
non-blank and still splits on the arrow; the text is a non-empty list of
non-blank lines whose last line carries no trailing whitespace. -/
def entryInv (e : SubtitleDict) : Prop :=
  pyStrip e.timestamp = e.timestamp ∧
  isBlank e.timestamp = false ∧
  e.text ≠ [] ∧
  (∀ l ∈ e.text, isBlank l = false) ∧
  modifyLastStr pyStripRight e.text = e.text ∧
  2 ≤ (pySplit " --> ".data e.timestamp.data).length

/-- Sample entry used by concrete witnesses. -/
def subA : SubtitleDict :=
  ⟨4, "00:00:01,000 --> 00:00:02,000", ["Bonjour"], 1, 2⟩

/-- Second sample entry used by concrete witnesses. -/
def subB : SubtitleDict :=
  ⟨9, "00:00:03,000 --> 00:00:04,000", ["Encore une fois"], 3, 4⟩

/-- A two-entry document with gapped numbering (5 and 7) and no junk text:
the concrete input on which the unconditional renumbering claim fails. -/
def docNoJunk : List String :=
  ["5", "00:00:01,000 --> 00:00:02,000", "hello", "",
   "7", "00:00:03,000 --> 00:00:04,000", "world"]

/-- A well-formed two-block document (second text spans two lines) used by
the parse-count witness. -/
def docWF : List String :=
  ["5", "00:00:01,000 --> 00:00:02,000", "Bonjour", "",
   "9", "00:00:03,000 --> 00:00:04,000", "Salut", "tout le monde"]

/-! ### Character-level lemmas about the strip primitives -/

theorem dropWhile_all_false {α : Type} {p : α → Bool} :
    ∀ {l : List α}, (∀ a ∈ l, p a = false) → l.dropWhile p = l
  | [], _ => rfl
  | a :: l, h => by
    rw [List.dropWhile_cons, h a (by simp)]
    simp

theorem dropWhile_idem {α : Type} {p : α → Bool} :
    ∀ l : List α, (l.dropWhile p).dropWhile p = l.dropWhile p
  | [] => rfl
  | a :: l => by
    by_cases h : p a = true
    · rw [List.dropWhile_cons, if_pos h]
      exact dropWhile_idem l
    · rw [List.dropWhile_cons, if_neg h, List.dropWhile_cons, if_neg h]

theorem head_false_of_dropWhile_eq {α : Type} {p : α → Bool} {l : List α}
    (h : l.dropWhile p = l) {c : α} {cs : List α} (hl : l = c :: cs) :
    p c = false := by
  subst hl
  by_contra hc
  rw [Bool.not_eq_false] at hc
  rw [List.dropWhile_cons, if_pos hc] at h
  have := (List.dropWhile_suffix (l := cs) p).length_le
  have := congrArg List.length h
  simp at this
  omega

theorem dropWhile_eq_self_of_prefix {α : Type} {p : α → Bool} {t l : List α}
    (hpre : t <+: l) (h : l.dropWhile p = l) : t.dropWhile p = t := by
  cases t with
  | nil => rfl
  | cons c cs =>
    obtain ⟨u, hu⟩ := hpre
    have hc : p c = false := head_false_of_dropWhile_eq h (by rw [← hu]; rfl)
    rw [List.dropWhile_cons, if_neg (by simp [hc])]

theorem dropWhile_all_ne {α : Type} {p : α → Bool} :
    ∀ {l : List α}, l.all p = false → (l.dropWhile p).all p = false
  | a :: l, h => by
    by_cases ha : p a = true
    · rw [List.dropWhile_cons, if_pos ha]
      exact dropWhile_all_ne (by simpa [ha] using h)
    · rw [List.dropWhile_cons, if_neg ha]
      exact h

theorem data_mk (l : List Char) : (String.mk l).data = l := rfl

theorem mk_data (s : String) : String.mk s.data = s := by cases s; rfl

theorem pyStripLeft_data (s : String) :
    (pyStripLeft s).data = s.data.dropWhile Char.isWhitespace := rfl

theorem pyStripRight_data (s : String) :
    (pyStripRight s).data =
      ((s.data.reverse.dropWhile Char.isWhitespace).reverse) := rfl

theorem pyStripLeft_idem (s : String) :
    pyStripLeft (pyStripLeft s) = pyStripLeft s := by
  unfold pyStripLeft
  rw [data_mk, dropWhile_idem]

theorem pyStripRight_idem (s : String) :
    pyStripRight (pyStripRight s) = pyStripRight s := by
  unfold pyStripRight
  rw [data_mk, List.reverse_reverse, dropWhile_idem]

theorem pyStrip_pyStripLeft (s : String) :
    pyStrip (pyStripLeft s) = pyStrip s := by
  unfold pyStrip
  rw [pyStripLeft_idem]

theorem dropWhile_pyStrip_data (s : String) :
    (pyStrip s).data.dropWhile Char.isWhitespace = (pyStrip s).data := by
  have hX : (pyStripLeft s).data.dropWhile Char.isWhitespace
      = (pyStripLeft s).data := by
    rw [pyStripLeft_data, dropWhile_idem]
  have hpre : (pyStrip s).data <+: (pyStripLeft s).data := by
    rw [← List.reverse_suffix]
    show (pyStripRight (pyStripLeft s)).data.reverse <:+ _
    rw [pyStripRight_data, List.reverse_reverse]
    exact List.dropWhile_suffix _
  exact dropWhile_eq_self_of_prefix hpre hX

theorem pyStripLeft_of_pyStrip (s : String) :
    pyStripLeft (pyStrip s) = pyStrip s := by
  unfold pyStripLeft
  rw [dropWhile_pyStrip_data, mk_data]

theorem pyStripRight_of_pyStrip (s : String) :
    pyStripRight (pyStrip s) = pyStrip s := by
  show pyStripRight (pyStripRight (pyStripLeft s)) = _
  rw [pyStripRight_idem]
  rfl

theorem pyStrip_idem (s : String) : pyStrip (pyStrip s) = pyStrip s := by
  show pyStripRight (pyStripLeft (pyStrip s)) = _
  rw [pyStripLeft_of_pyStrip, pyStripRight_of_pyStrip]

theorem pyStripLeft_of_nonWS {s : String}
    (h : ∀ c ∈ s.data, c.isWhitespace = false) : pyStripLeft s = s := by
  unfold pyStripLeft
  rw [dropWhile_all_false h, mk_data]

theorem pyStrip_of_nonWS {s : String}
    (h : ∀ c ∈ s.data, c.isWhitespace = false) : pyStrip s = s := by
  unfold pyStrip pyStripLeft pyStripRight
  rw [data_mk, dropWhile_all_false h,
    dropWhile_all_false (by intro c hc; exact h c (List.mem_reverse.mp hc)),
    List.reverse_reverse, mk_data]

theorem isBlank_pyStripRight {s : String} (h : isBlank s = false) :
    isBlank (pyStripRight s) = false := by
  unfold isBlank at *
  rw [pyStripRight_data, List.all_reverse]
  exact dropWhile_all_ne (by rwa [List.all_reverse])

theorem isBlank_pyStrip {s : String} (h : isBlank s = false) :
    isBlank (pyStrip s) = false := by
  apply isBlank_pyStripRight
  unfold isBlank at *
  rw [pyStripLeft_data]
  exact dropWhile_all_ne h

/-! ### Decimal rendering and parsing round trip -/

theorem natDigitsRevFuel_congr :
    ∀ (f1 : Nat) {f2 n : Nat}, n ≤ f1 → n ≤ f2 →
      natDigitsRevFuel f1 n = natDigitsRevFuel f2 n
  | 0, f2, n, h1, _ => by
    have hn : n = 0 := by omega
    subst hn
    cases f2 with
    | zero => rfl
    | succ f2 => simp [natDigitsRevFuel]
  | f1 + 1, f2, n, h1, h2 => by
    cases f2 with
    | zero =>
      have hn : n = 0 := by omega
      subst hn
      simp [natDigitsRevFuel]
    | succ f2 =>
      show (if n = 0 then [] else _) = (if n = 0 then [] else _)
      by_cases h0 : n = 0
      · rw [if_pos h0, if_pos h0]
      · rw [if_neg h0, if_neg h0,
          natDigitsRevFuel_congr f1 (by omega : n / 10 ≤ f1)
            (by omega : n / 10 ≤ f2)]

theorem natDigitsRev_eq (n : Nat) :
    natDigitsRev n =
      if n = 0 then [] else Nat.digitChar (n % 10) :: natDigitsRev (n / 10) := by
  by_cases h0 : n = 0
  · subst h0
    rfl
  · rw [if_neg h0]
    obtain ⟨k, hk⟩ : ∃ k, n = k + 1 := ⟨n - 1, by omega⟩
    subst hk
    show (if k + 1 = 0 then [] else
      Nat.digitChar ((k + 1) % 10) :: natDigitsRevFuel k ((k + 1) / 10)) = _
    rw [if_neg h0]
    congr 1
    exact natDigitsRevFuel_congr k (by omega) (by omega)

theorem digit?_digitChar : ∀ r : Nat, r < 10 → digit? (Nat.digitChar r) = some r := by
  decide

theorem digitChar_not_ws : ∀ r : Nat, r < 10 →
    (Nat.digitChar r).isWhitespace = false := by
  decide

theorem digitChar_ne_sign : ∀ r : Nat, r < 10 →
    Nat.digitChar r ≠ '-' ∧ Nat.digitChar r ≠ '+' := by
  decide

theorem mem_natDigitsRev {n : Nat} :
    ∀ {c : Char}, c ∈ natDigitsRev n → ∃ r, r < 10 ∧ c = Nat.digitChar r := by
  induction n using Nat.strong_induction_on with
  | _ n ih =>
    intro c hc
    rw [natDigitsRev_eq] at hc
    by_cases h0 : n = 0
    · rw [if_pos h0] at hc
      simp at hc
    · rw [if_neg h0] at hc
      rcases List.mem_cons.mp hc with h | h
      · exact ⟨n % 10, Nat.mod_lt _ (by omega), h⟩
      · exact ih (n / 10) (Nat.div_lt_self (by omega) (by omega)) h

theorem digitsValAux_append : ∀ (xs ys : List Char) (acc : Nat),
    digitsValAux (xs ++ ys) acc =
      (digitsValAux xs acc).bind (digitsValAux ys)
  | [], ys, acc => rfl
  | x :: xs, ys, acc => by
    cases hx : digit? x with
    | none => simp [digitsValAux, hx]
    | some d => simp [digitsValAux, hx, digitsValAux_append xs ys]

theorem digitsValAux_natDigitsRev {n : Nat} : ∀ acc : Nat,
    digitsValAux (natDigitsRev n).reverse acc =
      some (acc * 10 ^ (natDigitsRev n).length + n) := by
  induction n using Nat.strong_induction_on with
  | _ n ih =>
    intro acc
    by_cases h0 : n = 0
    · subst h0
      rw [natDigitsRev_eq]
      simp [digitsValAux]
    · rw [natDigitsRev_eq, if_neg h0]
      rw [List.reverse_cons, digitsValAux_append,
        ih (n / 10) (Nat.div_lt_self (by omega) (by omega)) acc,
        Option.some_bind]
      simp only [digitsValAux, digit?_digitChar (n % 10) (Nat.mod_lt _ (by omega)),
        List.length_cons]
      congr 1
      calc (acc * 10 ^ (natDigitsRev (n / 10)).length + n / 10) * 10 + n % 10
          = acc * (10 ^ (natDigitsRev (n / 10)).length * 10) +
              (n / 10 * 10 + n % 10) := by ring
        _ = acc * (10 ^ (natDigitsRev (n / 10)).length * 10) + n := by
              rw [Nat.div_add_mod']
        _ = acc * 10 ^ ((natDigitsRev (n / 10)).length + 1) + n := by
              rw [pow_succ]

theorem digitsVal?_natDigitsRev {n : Nat} (h0 : n ≠ 0) :
    digitsVal? (natDigitsRev n).reverse = some n := by
  have hne : (natDigitsRev n).reverse ≠ [] := by
    rw [natDigitsRev_eq, if_neg h0]
    simp
  obtain ⟨y, ys, hys⟩ := List.exists_cons_of_ne_nil hne
  rw [hys]
  show digitsValAux (y :: ys) 0 = some n
  rw [← hys, digitsValAux_natDigitsRev]
  simp

theorem natToDecimal_digits {k : Nat} :
    ∀ c ∈ (natToDecimal k).data, ∃ r, r < 10 ∧ c = Nat.digitChar r := by
  intro c hc
  unfold natToDecimal at hc
  by_cases h0 : k = 0
  · rw [if_pos h0] at hc
    refine ⟨0, by omega, ?_⟩
    simpa using hc
  · rw [if_neg h0] at hc
    rw [data_mk, List.mem_reverse] at hc
    exact mem_natDigitsRev hc

theorem natToDecimal_nonWS {k : Nat} :
    ∀ c ∈ (natToDecimal k).data, c.isWhitespace = false := by
  intro c hc
  obtain ⟨r, hr, rfl⟩ := natToDecimal_digits c hc
  exact digitChar_not_ws r hr

theorem natToDecimal_ne_nil {k : Nat} : (natToDecimal k).data ≠ [] := by
  unfold natToDecimal
  by_cases h0 : k = 0
  · rw [if_pos h0]
    simp [String.data]
  · rw [if_neg h0, data_mk, natDigitsRev_eq, if_neg h0]
    simp

theorem digitsVal?_natToDecimal {k : Nat} :
    digitsVal? (natToDecimal k).data = some k := by
  unfold natToDecimal
  by_cases h0 : k = 0
  · rw [if_pos h0, h0]
    rfl
  · rw [if_neg h0, data_mk]
    exact digitsVal?_natDigitsRev h0

theorem data_append (s t : String) : (s ++ t).data = s.data ++ t.data :=
  String.data_append s t

theorem intToDecimal_nonWS {i : Int} :
    ∀ c ∈ (intToDecimal i).data, c.isWhitespace = false := by
  intro c hc
  unfold intToDecimal at hc
  by_cases hi : i < 0
  · rw [if_pos hi, data_append] at hc
    rcases List.mem_append.mp hc with h | h
    · have : c = '-' := by simpa using h
      subst this
      decide
    · exact natToDecimal_nonWS c h
  · rw [if_neg hi] at hc
    exact natToDecimal_nonWS c hc

theorem intToDecimal_ne_nil {i : Int} : (intToDecimal i).data ≠ [] := by
  unfold intToDecimal
  by_cases hi : i < 0
  · rw [if_pos hi, data_append]
    simp
  · rw [if_neg hi]
    exact natToDecimal_ne_nil

theorem isBlank_intToDecimal {i : Int} : isBlank (intToDecimal i) = false := by
  unfold isBlank
  obtain ⟨c, cs, h⟩ := List.exists_cons_of_ne_nil (intToDecimal_ne_nil (i := i))
  rw [h]
  have := intToDecimal_nonWS (i := i) c (by rw [h]; simp)
  simp [this]

theorem pyStrip_intToDecimal {i : Int} : pyStrip (intToDecimal i) = intToDecimal i :=
  pyStrip_of_nonWS intToDecimal_nonWS

theorem digitsVal?_eq_aux : ∀ {l : List Char}, l ≠ [] → digitsVal? l = digitsValAux l 0
  | [], h => absurd rfl h
  | _ :: _, _ => rfl

theorem pyInt?_intToDecimal (i : Int) : pyInt? (intToDecimal i) = some i := by
  by_cases hi : i < 0
  · have hd : (intToDecimal i).data = '-' :: (natToDecimal i.natAbs).data := by
      unfold intToDecimal
      rw [if_pos hi, data_append]
      rfl
    simp only [pyInt?, pyStrip_intToDecimal, hd]
    rw [if_pos trivial, digitsVal?_natToDecimal]
    exact congrArg some (show -((i.natAbs : Int)) = i by omega)
  · obtain ⟨c, cs, h⟩ := List.exists_cons_of_ne_nil (natToDecimal_ne_nil (k := i.natAbs))
    obtain ⟨r, hr, hcr⟩ := natToDecimal_digits (k := i.natAbs) c (by rw [h]; simp)
    have hsign := digitChar_ne_sign r hr
    have hd2 : (intToDecimal i).data = c :: cs := by
      unfold intToDecimal
      rw [if_neg hi, h]
    simp only [pyInt?, pyStrip_intToDecimal, hd2]
    rw [if_neg (by rw [hcr]; exact hsign.1), if_neg (by rw [hcr]; exact hsign.2),
      ← h, digitsVal?_natToDecimal]
    exact congrArg some (show ((i.natAbs : Int)) = i by omega)

theorem pyInt?_pyStripLeft (s : String) : pyInt? (pyStripLeft s) = pyInt? s := by
  unfold pyInt?
  rw [pyStrip_pyStripLeft]

/-! ### Lemmas about blocks and block splitting -/

theorem modifyLastStr_cons₂ (f : String → String) (x y : String) (xs : List String) :
    modifyLastStr f (x :: y :: xs) = x :: modifyLastStr f (y :: xs) := rfl

theorem modifyLastStr_length (f : String → String) :
    ∀ l : List String, (modifyLastStr f l).length = l.length
  | [] => rfl
  | [_] => rfl
  | _ :: y :: xs => by
    rw [modifyLastStr_cons₂]
    simp [modifyLastStr_length f (y :: xs)]

theorem mem_modifyLastStr {f : String → String} :
    ∀ {l : List String} {s : String}, s ∈ modifyLastStr f l →
      s ∈ l ∨ ∃ x ∈ l, s = f x
  | [], _, h => by simp [modifyLastStr] at h
  | [x], s, h => by
    simp [modifyLastStr] at h
    exact Or.inr ⟨x, by simp, h⟩
  | x :: y :: xs, s, h => by
    rw [modifyLastStr_cons₂] at h
    rcases List.mem_cons.mp h with h | h
    · exact Or.inl (by simp [h])
    · rcases mem_modifyLastStr h with h | ⟨z, hz, hzf⟩
      · exact Or.inl (List.mem_cons_of_mem _ h)
      · exact Or.inr ⟨z, List.mem_cons_of_mem _ hz, hzf⟩

theorem modifyLastStr_ne_nil {f : String → String} :
    ∀ {l : List String}, l ≠ [] → modifyLastStr f l ≠ []
  | [], h => absurd rfl h
  | [x], _ => by simp [modifyLastStr]
  | _ :: _ :: _, _ => by
    rw [modifyLastStr_cons₂]
    simp

theorem modifyLastStr_idem {f : String → String} (hf : ∀ s, f (f s) = f s) :
    ∀ l : List String, modifyLastStr f (modifyLastStr f l) = modifyLastStr f l
  | [] => rfl
  | [x] => by simp [modifyLastStr, hf]
  | x :: y :: xs => by
    obtain ⟨z, zs, hz⟩ :=
      List.exists_cons_of_ne_nil (modifyLastStr_ne_nil (f := f) (l := y :: xs) (by simp))
    rw [modifyLastStr_cons₂, hz, modifyLastStr_cons₂, ← hz,
      modifyLastStr_idem hf (y :: xs)]

theorem stripBlock_noBlank {x y : String} {xs : List String}
    (h : ∀ l ∈ x :: y :: xs, isBlank l = false) :
    stripBlock (x :: y :: xs) = pyStripLeft x :: modifyLastStr pyStripRight (y :: xs) := by
  unfold stripBlock
  rw [dropWhile_all_false h,
    dropWhile_all_false (fun l hl => h l (List.mem_reverse.mp hl)),
    List.reverse_reverse]

theorem splitBlocksAux_nil (acc : List String) :
    splitBlocksAux [] acc = if acc.isEmpty then [] else [acc.reverse] := rfl

theorem splitBlocksAux_cons (l : String) (ls acc : List String) :
    splitBlocksAux (l :: ls) acc =
      if isBlank l then
        (if acc.isEmpty then splitBlocksAux ls [] else acc.reverse :: splitBlocksAux ls [])
      else splitBlocksAux ls (l :: acc) := rfl

theorem splitBlocksAux_mem_noBlank :
    ∀ {ls : List String} {acc : List String} {b : List String},
      (∀ l ∈ acc, isBlank l = false) → b ∈ splitBlocksAux ls acc →
        b ≠ [] ∧ ∀ l ∈ b, isBlank l = false
  | [], acc, b, hacc, hb => by
    rw [splitBlocksAux_nil] at hb
    by_cases hacc0 : acc.isEmpty
    · rw [if_pos hacc0] at hb
      simp at hb
    · rw [if_neg hacc0] at hb
      simp at hb
      subst hb
      refine ⟨by simpa using hacc0, fun l hl => hacc l (List.mem_reverse.mp hl)⟩
  | l :: ls, acc, b, hacc, hb => by
    rw [splitBlocksAux_cons] at hb
    by_cases hbl : isBlank l
    · rw [if_pos hbl] at hb
      by_cases hacc0 : acc.isEmpty
      · rw [if_pos hacc0] at hb
        exact splitBlocksAux_mem_noBlank (by simp) hb
      · rw [if_neg hacc0] at hb
        rcases List.mem_cons.mp hb with hb | hb
        · subst hb
          refine ⟨by simpa using hacc0, fun z hz => hacc z (List.mem_reverse.mp hz)⟩
        · exact splitBlocksAux_mem_noBlank (by simp) hb
    · rw [if_neg hbl] at hb
      refine splitBlocksAux_mem_noBlank ?_ hb
      intro z hz
      rcases List.mem_cons.mp hz with hz | hz
      · subst hz
        simpa using hbl
      · exact hacc z hz

theorem splitBlocks_mem_noBlank {doc : List String} {b : List String}
    (hb : b ∈ splitBlocks doc) : b ≠ [] ∧ ∀ l ∈ b, isBlank l = false :=
  splitBlocksAux_mem_noBlank (by simp) hb

theorem splitBlocksAux_nonblank_chunk :
    ∀ {A : List String} {rest acc : List String},
      (∀ l ∈ A, isBlank l = false) →
      splitBlocksAux (A ++ rest) acc = splitBlocksAux rest (A.reverse ++ acc)
  | [], rest, acc, _ => by simp
  | a :: A, rest, acc, h => by
    show splitBlocksAux (a :: (A ++ rest)) acc = _
    rw [splitBlocksAux_cons, if_neg (by simp [h a (by simp)]),
      splitBlocksAux_nonblank_chunk (fun l hl => h l (List.mem_cons_of_mem _ hl))]
    congr 1
    simp

theorem splitBlocksAux_trailing_blank {x : String} (hx : isBlank x = true) :
    ∀ (ls acc : List String),
      splitBlocksAux (ls ++ [x]) acc = splitBlocksAux ls acc
  | [], acc => by
    show splitBlocksAux [x] acc = _
    rw [splitBlocksAux_cons, if_pos hx, splitBlocksAux_nil, splitBlocksAux_nil]
    by_cases hacc : acc.isEmpty
    · rw [if_pos hacc, if_pos hacc]
      simp
    · rw [if_neg hacc, if_neg hacc]
      simp
  | l :: ls, acc => by
    show splitBlocksAux (l :: (ls ++ [x])) acc = _
    rw [splitBlocksAux_cons, splitBlocksAux_cons]
    by_cases hl : isBlank l
    · rw [if_pos hl, if_pos hl, splitBlocksAux_trailing_blank hx ls]
    · rw [if_neg hl, if_neg hl, splitBlocksAux_trailing_blank hx ls]

theorem splitBlocks_block_sep {A B : List String} (hA : A ≠ [])
    (h : ∀ l ∈ A, isBlank l = false) :
    splitBlocks (A ++ "" :: B) = A :: splitBlocks B := by
  unfold splitBlocks
  rw [splitBlocksAux_nonblank_chunk h, List.append_nil, splitBlocksAux_cons,
    if_pos (by rfl), if_neg (by simpa using hA), List.reverse_reverse]

theorem splitBlocks_single {A : List String} (hA : A ≠ [])
    (h : ∀ l ∈ A, isBlank l = false) : splitBlocks A = [A] := by
  unfold splitBlocks
  have step := @splitBlocksAux_nonblank_chunk A [] [] h
  rw [List.append_nil] at step
  rw [step, splitBlocksAux_nil, if_neg (by simpa using hA)]
  simp

/-! ### Characterizing one block's parse -/

theorem modifyLastStr_cons_of_ne {f : String → String} {a : String}
    {t : List String} (ht : t ≠ []) :
    modifyLastStr f (a :: t) = a :: modifyLastStr f t := by
  obtain ⟨z, zs, hz⟩ := List.exists_cons_of_ne_nil ht
  subst hz
  exact modifyLastStr_cons₂ f a z zs

theorem stripBlock_singleton {x : String} (hx : isBlank x = false) :
    stripBlock [x] = [pyStrip x] := by
  unfold stripBlock
  have h1 : ∀ l ∈ [x], isBlank l = false := by simpa using hx
  rw [dropWhile_all_false h1,
    dropWhile_all_false (fun l hl => h1 l (List.mem_reverse.mp hl)),
    List.reverse_reverse]

theorem all_isBlank_false_of_head {z : String} {zs : List String}
    (hz : isBlank z = false) : (z :: zs).all isBlank = false := by
  simp [hz]

theorem parseBlock_produces {b : List String} {l0 l1 : String}
    {rest : List String} {n : Int} {a bb : List Char} {more : List (List Char)}
    (hs : stripBlock b = l0 :: l1 :: rest)
    (hrest : rest ≠ [])
    (hn : pyInt? l0 = some n)
    (htext : rest.all isBlank = false)
    (harrow : pySplit " --> ".data (pyStrip l1).data = a :: bb :: more) :
    parseBlock b =
      some ⟨n, pyStrip l1, rest, parse_time (String.mk a), parse_time (String.mk bb)⟩ := by
  have hlen : ¬ (l0 :: l1 :: rest).length < 3 := by
    obtain ⟨r, rs, hr⟩ := List.exists_cons_of_ne_nil hrest
    subst hr
    simp
  simp only [parseBlock, hs, if_neg hlen, List.headD_cons, hn,
    List.getD_cons_succ, List.getD_cons_zero, List.drop_succ_cons,
    List.drop_zero, htext, harrow]
  simp

theorem parseBlock_some_inv {b : List String} {e : SubtitleDict}
    (h : parseBlock b = some e) :
    ∃ l0 l1 rest, stripBlock b = l0 :: l1 :: rest ∧ rest ≠ [] ∧
      e.timestamp = pyStrip l1 ∧ e.text = rest ∧
      rest.all isBlank = false ∧
      2 ≤ (pySplit " --> ".data e.timestamp.data).length := by
  rcases hs : stripBlock b with _ | ⟨l0, _ | ⟨l1, rest⟩⟩
  · simp [parseBlock, hs] at h
  · simp [parseBlock, hs] at h
  · rcases hrest : rest with _ | ⟨r, rs⟩
    · subst hrest
      simp [parseBlock, hs] at h
    · subst hrest
      have hlen : ¬ (l0 :: l1 :: r :: rs).length < 3 := by simp
      rcases hn : pyInt? l0 with _ | n
      · simp [parseBlock, hs, if_neg hlen, hn] at h
      · rcases hblank : (r :: rs).all isBlank with _ | _
        · rcases harrow : pySplit " --> ".data (pyStrip l1).data with _ | ⟨a, _ | ⟨bb, more⟩⟩
          · simp [parseBlock, hs, if_neg hlen, hn, hblank, harrow] at h
          · simp [parseBlock, hs, if_neg hlen, hn, hblank, harrow] at h
          · have he : e = ⟨n, pyStrip l1, r :: rs, parse_time (String.mk a),
                parse_time (String.mk bb)⟩ := by
              symm
              rw [← Option.some_inj]
              rw [← h]
              simp only [parseBlock, hs, if_neg hlen, List.headD_cons, hn,
                List.getD_cons_succ, List.getD_cons_zero, List.drop_succ_cons,
                List.drop_zero, hblank, harrow]
              simp
            refine ⟨l0, l1, r :: rs, rfl, by simp, by rw [he], by rw [he], hblank, ?_⟩
            rw [he]
            show 2 ≤ (pySplit " --> ".data (pyStrip l1).data).length
            rw [harrow]
            simp
        · simp [parseBlock, hs, if_neg hlen, hn, hblank] at h

theorem parse_entryInv {doc : List String} {e : SubtitleDict}
    (he : e ∈ SRTFile.parse doc) : entryInv e := by
  obtain ⟨b, hb, hpb⟩ := List.mem_filterMap.mp he
  obtain ⟨hbne, hbnb⟩ := splitBlocks_mem_noBlank hb
  obtain ⟨l0, l1, rest, hs, hrest, hts, htext, hblank, hparts⟩ :=
    parseBlock_some_inv hpb
  rcases b with _ | ⟨x, _ | ⟨y, xs⟩⟩
  · exact absurd rfl hbne
  · rw [stripBlock_singleton (hbnb x (by simp))] at hs
    simp at hs
  · rw [stripBlock_noBlank hbnb] at hs
    have hmod : modifyLastStr pyStripRight (y :: xs) = l1 :: rest := by
      injection hs
  
    have hmem : ∀ l ∈ l1 :: rest, isBlank l = false := by
      intro l hl
      rw [← hmod] at hl
      rcases mem_modifyLastStr hl with h | ⟨z, hz, rfl⟩
      · exact hbnb l (List.mem_cons_of_mem _ h)
      · exact isBlank_pyStripRight (hbnb z (List.mem_cons_of_mem _ hz))
    have hidem : modifyLastStr pyStripRight (l1 :: rest) = l1 :: rest := by
      rw [← hmod, modifyLastStr_idem pyStripRight_idem]
    have hmodrest : modifyLastStr pyStripRight rest = rest := by
      have h2 := hidem
      rw [modifyLastStr_cons_of_ne hrest] at h2
      injection h2
    refine ⟨?_, ?_, ?_, ?_, ?_, ?_⟩
    · rw [hts]
      exact pyStrip_idem l1
    · rw [hts]
      exact isBlank_pyStrip (hmem l1 (by simp))
    · rw [htext]
      exact hrest
    · rw [htext]
      intro l hl
      exact hmem l (List.mem_cons_of_mem _ hl)
    · rw [htext]
      exact hmodrest
    · exact hparts

theorem parseBlock_blockOf {e : SubtitleDict} (hinv : entryInv e) :
    ∃ e' : SubtitleDict, parseBlock (blockOf e) = some e' ∧
      e'.timestamp = e.timestamp ∧ e'.text = e.text := by
  obtain ⟨hts, htsb, htne, htmem, htlast, hparts⟩ := hinv
  obtain ⟨a, bb, more, harrow⟩ : ∃ a bb more,
      pySplit " --> ".data (pyStrip e.timestamp).data = a :: bb :: more := by
    rw [hts]
    rcases hp : pySplit " --> ".data e.timestamp.data with _ | ⟨a, _ | ⟨bb, more⟩⟩
    · rw [hp] at hparts
      simp at hparts
    · rw [hp] at hparts
      simp at hparts
    · exact ⟨a, bb, more, rfl⟩
  have hblocknb : ∀ l ∈ intToDecimal e.number :: e.timestamp :: e.text,
      isBlank l = false := by
    intro l hl
    rcases List.mem_cons.mp hl with rfl | hl
    · exact isBlank_intToDecimal
    · rcases List.mem_cons.mp hl with rfl | hl
      · exact htsb
      · exact htmem l hl
  have hstrip : stripBlock (blockOf e) =
      pyStripLeft (intToDecimal e.number) :: e.timestamp :: e.text := by
    show stripBlock (intToDecimal e.number :: e.timestamp :: e.text) = _
    rw [stripBlock_noBlank hblocknb, modifyLastStr_cons_of_ne htne, htlast]
  have hn : pyInt? (pyStripLeft (intToDecimal e.number)) = some e.number := by
    rw [pyInt?_pyStripLeft]
    exact pyInt?_intToDecimal e.number
  have htextne : e.text.all isBlank = false := by
    obtain ⟨z, zs, hz⟩ := List.exists_cons_of_ne_nil htne
    rw [hz]
    exact all_isBlank_false_of_head (htmem z (by rw [hz]; simp))
  refine ⟨⟨e.number, pyStrip e.timestamp, e.text, parse_time (String.mk a),
      parse_time (String.mk bb)⟩,
    parseBlock_produces hstrip htne hn htextne harrow, ?_, rfl⟩
  show pyStrip e.timestamp = e.timestamp
  exact hts

/-! ### Serialization, renumbering and classifier helpers -/

theorem splitBlocks_serial :
    ∀ {es : List SubtitleDict},
      (∀ e ∈ es, isBlank e.timestamp = false ∧ e.text ≠ [] ∧
        ∀ l ∈ e.text, isBlank l = false) →
      splitBlocks ((es.map (fun s =>
        intToDecimal s.number :: s.timestamp :: s.text ++ [""])).flatten) =
        es.map blockOf
  | [], _ => rfl
  | e :: es, h => by
    have hself := h e (by simp)
    have hblocknb : ∀ l ∈ blockOf e, isBlank l = false := by
      intro l hl
      rcases List.mem_cons.mp hl with rfl | hl
      · exact isBlank_intToDecimal
      · rcases List.mem_cons.mp hl with rfl | hl
        · exact hself.1
        · exact hself.2.2 l hl
    have hrw : ((e :: es).map (fun s =>
        intToDecimal s.number :: s.timestamp :: s.text ++ [""])).flatten =
        blockOf e ++ "" :: (es.map (fun s =>
          intToDecimal s.number :: s.timestamp :: s.text ++ [""])).flatten := by
      show (intToDecimal e.number :: e.timestamp :: e.text ++ [""]) ++ _ = _
      show blockOf e ++ [""] ++ _ = _
      rw [List.append_assoc]
      rfl
    rw [hrw, splitBlocks_block_sep (by simp [blockOf]) hblocknb,
      splitBlocks_serial (fun x hx => h x (List.mem_cons_of_mem _ hx))]
    rfl

theorem splitBlocks_prepare {es : List SubtitleDict}
    (h : ∀ e ∈ es, isBlank e.timestamp = false ∧ e.text ≠ [] ∧
      ∀ l ∈ e.text, isBlank l = false) :
    splitBlocks (prepare_cleaned_content_for_write es) = es.map blockOf := by
  unfold prepare_cleaned_content_for_write
  set cleaned := (es.map (fun s =>
    intToDecimal s.number :: s.timestamp :: s.text ++ [""])).flatten with hcl
  by_cases hlast : cleaned.getLast? = some ""
  · rw [if_pos hlast]
    have hne : cleaned ≠ [] := by
      intro h0
      rw [h0] at hlast
      simp at hlast
    have hget : cleaned.getLast hne = "" := by
      have := List.getLast?_eq_getLast cleaned hne
      rw [this] at hlast
      exact (Option.some_inj.mp hlast)
    have hdec : cleaned.dropLast ++ [""] = cleaned := by
      conv_rhs => rw [← List.dropLast_append_getLast hne]
      rw [hget]
    have := splitBlocksAux_trailing_blank (x := "") (by rfl) cleaned.dropLast []
    unfold splitBlocks
    rw [← this, hdec]
    exact splitBlocks_serial h
  · rw [if_neg hlast]
    exact splitBlocks_serial h

theorem parse_prepare :
    ∀ {es : List SubtitleDict}, (∀ e ∈ es, entryInv e) →
      (SRTFile.parse (prepare_cleaned_content_for_write es)).map tsText =
        es.map tsText := by
  intro es h
  unfold SRTFile.parse
  rw [splitBlocks_prepare (fun e he => ⟨(h e he).2.1, (h e he).2.2.1, (h e he).2.2.2.1⟩)]
  induction es with
  | nil => rfl
  | cons e es ih =>
    obtain ⟨e', he', hts, htext⟩ := parseBlock_blockOf (h e (by simp))
    rw [List.map_cons, List.filterMap_cons, he']
    rw [List.map_cons, List.map_cons]
    rw [ih (fun x hx => h x (List.mem_cons_of_mem _ hx))]
    unfold tsText
    rw [hts, htext]

theorem renumberFrom_mem :
    ∀ {l : List SubtitleDict} {i : Int} {e : SubtitleDict},
      e ∈ renumberFrom i l →
        ∃ s ∈ l, e.timestamp = s.timestamp ∧ e.text = s.text
  | [], _, _, h => by simp [renumberFrom] at h
  | s :: rest, i, e, h => by
    rcases List.mem_cons.mp h with rfl | h
    · exact ⟨s, by simp, rfl, rfl⟩
    · obtain ⟨z, hz, h1, h2⟩ := renumberFrom_mem h
      exact ⟨z, List.mem_cons_of_mem _ hz, h1, h2⟩

theorem entryInv_of_fields {a b : SubtitleDict} (hts : a.timestamp = b.timestamp)
    (htext : a.text = b.text) (h : entryInv b) : entryInv a := by
  unfold entryInv at *
  rw [hts, htext]
  exact h

theorem renumberFrom_numbers :
    ∀ (l : List SubtitleDict) (i : Int),
      numbersOf (renumberFrom i l) =
        (List.range l.length).map (fun k : Nat => i + (k : Int))
  | [], i => by simp [renumberFrom, numbersOf]
  | s :: rest, i => by
    have ih : (renumberFrom (i + 1) rest).map (fun s => s.number) =
        (List.range rest.length).map (fun k : Nat => (i + 1) + (k : Int)) := by
      simpa [numbersOf] using renumberFrom_numbers rest (i + 1)
    show (({ s with number := i } : SubtitleDict) :: renumberFrom (i + 1) rest).map
        (fun s => s.number) = _
    rw [List.map_cons, ih, List.length_cons, List.range_succ_eq_map, List.map_cons,
      List.map_map]
    refine congrArg₂ List.cons (by simp) ?_
    refine List.map_congr_left ?_
    intro k _
    show (i + 1) + (k : Int) = i + ((k + 1 : Nat) : Int)
    push_cast
    ring

theorem foldl_append_filter (p : SubtitleDict → Bool) :
    ∀ (l acc : List SubtitleDict),
      l.foldl (fun acc s => if p s then acc ++ [s] else acc) acc =
        acc ++ l.filter p
  | [], acc => by simp
  | s :: l, acc => by
    rw [List.foldl_cons]
    by_cases h : p s
    · rw [if_pos h, foldl_append_filter p l, List.filter_cons_of_pos h,
        List.append_assoc]
      rfl
    · rw [if_neg h, foldl_append_filter p l]
      congr 1
      simp [List.filter_cons, h]

theorem find_phony_eq_filter (pats : List RegexPat) (subs : List SubtitleDict) :
    find_phony_subtitles pats subs = subs.filter (subtitleIsJunk pats) := by
  unfold find_phony_subtitles
  rw [foldl_append_filter]
  simp

theorem remove_junk_eq {subs phony : List SubtitleDict} (h : phony ≠ []) :
    remove_junk_subtitles subs phony =
      ⟨phony.length,
        renumberFrom 1 (subs.filter (fun s => !(decide (s ∈ phony)))),
        ((renumberFrom 1 (subs.filter (fun s =>
          !(decide (s ∈ phony))))).filter hasEmptyText).length⟩ := by
  unfold remove_junk_subtitles
  rw [if_neg (by simpa using h)]

theorem cleanedEntries_inv {pats : List RegexPat} {doc : List String}
    {e : SubtitleDict} (he : e ∈ cleanedEntries pats (SRTFile.parse doc)) :
    entryInv e := by
  unfold cleanedEntries at he
  by_cases hp : (find_phony_subtitles pats (SRTFile.parse doc)).isEmpty
  · rw [if_pos hp] at he
    exact parse_entryInv he
  · rw [if_neg hp] at he
    rw [remove_junk_eq (by simpa using hp)] at he
    obtain ⟨z, hz, h1, h2⟩ := renumberFrom_mem he
    exact entryInv_of_fields h1 h2 (parse_entryInv (List.mem_filter.mp hz).1)

theorem find_phony_cleaned_nil (pats : List RegexPat) (subs : List SubtitleDict) :
    find_phony_subtitles pats
      ((remove_junk_subtitles subs
        (find_phony_subtitles pats subs)).subtitles_sans_bad_output) = [] := by
  by_cases hp : find_phony_subtitles pats subs = []
  · rw [hp]
    rfl
  · rw [remove_junk_eq hp]
    show find_phony_subtitles pats (renumberFrom 1 _) = []
    rw [find_phony_eq_filter, List.filter_eq_nil_iff]
    intro e he hj
    obtain ⟨z, hz, h1, h2⟩ := renumberFrom_mem he
    have hzsubs := (List.mem_filter.mp hz).1
    have hznotphony := (List.mem_filter.mp hz).2
    have hjz : subtitleIsJunk pats z = true := by
      unfold subtitleIsJunk textJoined at hj ⊢
      rw [h2] at hj
      exact hj
    have hzin : z ∈ find_phony_subtitles pats subs := by
      rw [find_phony_eq_filter]
      exact List.mem_filter.mpr ⟨hzsubs, hjz⟩
    simp [hzin] at hznotphony

/-! ### The split on the first separator occurrence -/

theorem containsSeq_nil (sep : List Char) : containsSeq sep [] = sep.isEmpty := rfl

theorem containsSeq_cons (sep : List Char) (c : Char) (cs : List Char) :
    containsSeq sep (c :: cs) =
      (sep.isPrefixOf (c :: cs) || containsSeq sep cs) := rfl

theorem containsSeq_append {sep : List Char} (hsep : sep ≠ []) :
    ∀ (p r : List Char), containsSeq sep (p ++ (sep ++ r)) = true
  | [], r => by
    obtain ⟨c, cs, hc⟩ := List.exists_cons_of_ne_nil hsep
    subst hc
    show containsSeq (c :: cs) (c :: (cs ++ r)) = true
    rw [containsSeq_cons]
    have : (c :: cs).isPrefixOf (c :: (cs ++ r)) = true :=
      List.isPrefixOf_iff_prefix.mpr (List.prefix_append (c :: cs) r)
    simp [this]
  | x :: p, r => by
    show containsSeq sep (x :: (p ++ (sep ++ r))) = true
    rw [containsSeq_cons, containsSeq_append hsep p r]
    simp

theorem containsSeq_decomp {sep : List Char} (hsep : sep ≠ []) :
    ∀ {l : List Char}, containsSeq sep l = true →
      ∃ p r, l = p ++ (sep ++ r)
  | [], h => by
    rw [containsSeq_nil] at h
    exact absurd h (by simpa using hsep)
  | c :: cs, h => by
    rw [containsSeq_cons] at h
    rcases Bool.or_eq_true_iff.mp h with h | h
    · obtain ⟨t, ht⟩ := List.isPrefixOf_iff_prefix.mp h
      exact ⟨[], t, by rw [← ht]; rfl⟩
    · obtain ⟨p, r, hpr⟩ := containsSeq_decomp hsep h
      exact ⟨c :: p, r, by rw [hpr]; rfl⟩

theorem splitFirst?_none_of_not_contains {sep : List Char} :
    ∀ {l : List Char}, containsSeq sep l = false → splitFirst? sep l = none
  | [], _ => rfl
  | c :: cs, h => by
    rw [containsSeq_cons, Bool.or_eq_false_iff] at h
    unfold splitFirst?
    rw [if_neg (by simp [h.1]), splitFirst?_none_of_not_contains h.2]

theorem prefix_take_of_le {α : Type} {l₁ l₂ : List α} {n : Nat}
    (h : l₁ <+: l₂) (hn : l₁.length ≤ n) : l₁ <+: List.take n l₂ := by
  rw [List.prefix_iff_eq_take] at h ⊢
  rw [List.take_take, Nat.min_eq_left hn]
  exact h

theorem splitFirst?_of_min {sep : List Char} (hsep : sep ≠ []) :
    ∀ {p : List Char} (r : List Char),
      containsSeq sep ((p ++ sep).dropLast) = false →
      splitFirst? sep (p ++ (sep ++ r)) = some (p, r)
  | [], r, _ => by
    obtain ⟨c, cs, hc⟩ := List.exists_cons_of_ne_nil hsep
    have hpre : sep.isPrefixOf (sep ++ r) = true :=
      List.isPrefixOf_iff_prefix.mpr (List.prefix_append sep r)
    subst hc
    show splitFirst? (c :: cs) (c :: (cs ++ r)) = _
    unfold splitFirst?
    rw [if_pos (by exact hpre), show (c :: (cs ++ r)) = (c :: cs) ++ r from rfl,
      List.drop_left]
  | x :: p, r, hmin => by
    have hX : ((x :: p) ++ sep).dropLast = x :: (p ++ sep).dropLast := by
      show (x :: (p ++ sep)).dropLast = _
      rw [List.dropLast_cons_of_ne_nil (by simp [hsep])]
    rw [hX, containsSeq_cons, Bool.or_eq_false_iff] at hmin
    obtain ⟨hmin1, hmin2⟩ := hmin
    have hnotpre : sep.isPrefixOf (x :: (p ++ (sep ++ r))) = false := by
      by_contra hc
      rw [Bool.not_eq_false] at hc
      have hpre := List.isPrefixOf_iff_prefix.mp hc
      have hlen : sep.length ≤ p.length + sep.length := by omega
      have hXr : (x :: (p ++ (sep ++ r))) = ((x :: p) ++ sep) ++ r := by simp
      have htake : List.take (p.length + sep.length) (x :: (p ++ (sep ++ r))) =
          ((x :: p) ++ sep).dropLast := by
        rw [hXr, List.take_append_of_le_length (by simp), List.dropLast_eq_take]
        congr 1
        simp
      have hpre2 := prefix_take_of_le hpre hlen
      rw [htake, hX] at hpre2
      exact absurd (List.isPrefixOf_iff_prefix.mpr hpre2) (by simp [hmin1])
    show splitFirst? sep (x :: (p ++ (sep ++ r))) = _
    unfold splitFirst?
    rw [if_neg (by simp [hnotpre]), splitFirst?_of_min hsep r hmin2]

theorem pySplit_of_not_contains {sep l : List Char}
    (h : containsSeq sep l = false) : pySplit sep l = [l] := by
  unfold pySplit
  rcases hn : l.length with _ | k
  · rfl
  · show pySplitFuel sep (k + 1) l = [l]
    unfold pySplitFuel
    rw [splitFirst?_none_of_not_contains h]

theorem pySplit_headD_of_min {sep : List Char} (hsep : sep ≠ []) {p : List Char}
    (r : List Char) (hmin : containsSeq sep ((p ++ sep).dropLast) = false) :
    (pySplit sep (p ++ (sep ++ r))).headD [] = p := by
  unfold pySplit
  have hne : (p ++ (sep ++ r)) ≠ [] := by
    obtain ⟨c, cs, hc⟩ := List.exists_cons_of_ne_nil hsep
    simp [hc]
  rcases hn : (p ++ (sep ++ r)).length with _ | k
  · exact absurd (List.length_eq_zero.mp hn) hne
  · show ((pySplitFuel sep (k + 1) (p ++ (sep ++ r)))).headD [] = p
    unfold pySplitFuel
    rw [splitFirst?_of_min hsep r hmin]
    rfl

/-! ### The state-passing classifier -/

theorem findPhonyGo_spec (pats : List RegexPat) :
    ∀ (l acc : List SubtitleDict) (st : SRTFileSt),
      findPhonyGo pats l acc st =
        (l.foldl (fun acc s => if subtitleIsJunk pats s then acc ++ [s] else acc)
          acc, st)
  | [], acc, st => rfl
  | s :: l, acc, st => by
    unfold findPhonyGo
    by_cases h : subtitleIsJunk pats s
    · rw [if_pos h, findPhonyGo_spec pats l, List.foldl_cons, if_pos h]
    · rw [if_neg h, findPhonyGo_spec pats l, List.foldl_cons, if_neg h]

/-! ### Final helpers for the claims -/

theorem renumberFrom_length :
    ∀ (l : List SubtitleDict) (i : Int), (renumberFrom i l).length = l.length
  | [], _ => rfl
  | _ :: rest, i => by
    show (_ :: renumberFrom (i + 1) rest).length = _
    simp [renumberFrom_length rest (i + 1)]

theorem renumberFrom_eraseNumber :
    ∀ (l : List SubtitleDict) (i : Int),
      (renumberFrom i l).map eraseNumber = l.map eraseNumber
  | [], _ => rfl
  | s :: rest, i => by
    show eraseNumber { s with number := i } :: (renumberFrom (i + 1) rest).map eraseNumber = _
    rw [renumberFrom_eraseNumber rest (i + 1)]
    rfl

theorem parseBlock_none_of_blank {b : List String} {l0 l1 : String}
    {rest : List String} (hs : stripBlock b = l0 :: l1 :: rest)
    (htext : rest.all isBlank = true) : parseBlock b = none := by
  by_cases hlen : (l0 :: l1 :: rest).length < 3
  · simp only [parseBlock, hs]
    rw [if_pos hlen]
  · rcases hn : pyInt? l0 with _ | n
    · simp [parseBlock, hs, hlen, hn]
    · simp [parseBlock, hs, hlen, hn, htext]

theorem parseBlock_wf_spec {b : List String} (h : blockWellFormed b = true) :
    parseBlock b = if blockHasText b then some (blockEntry b) else none := by
  simp only [blockWellFormed, Bool.and_eq_true, decide_eq_true_eq] at h
  obtain ⟨⟨hlen, hint⟩, hparts⟩ := h
  rcases hs : stripBlock b with _ | ⟨l0, _ | ⟨l1, rest⟩⟩
  · rw [hs] at hlen
    simp at hlen
  · rw [hs] at hlen
    simp at hlen
  · rcases hrest0 : rest with _ | ⟨r, rs⟩
    · rw [hs, hrest0] at hlen
      simp at hlen
    · subst hrest0
      rw [hs] at hint hparts
      simp only [List.headD_cons, List.getD_cons_succ, List.getD_cons_zero] at hint hparts
      obtain ⟨n, hn⟩ := Option.isSome_iff_exists.mp hint
      rcases harrow : pySplit " --> ".data (pyStrip l1).data with _ | ⟨a, _ | ⟨bb, more⟩⟩
      · rw [harrow] at hparts
        simp at hparts
      · rw [harrow] at hparts
        simp at hparts
      · by_cases ht : (r :: rs).all isBlank
        · rw [parseBlock_none_of_blank hs ht, if_neg]
          simp [blockHasText, hs, ht]
        · have htf : (r :: rs).all isBlank = false := by
            rwa [Bool.not_eq_true] at ht
          have hb : blockHasText b = true := by
            simp only [blockHasText, hs, List.drop_succ_cons, List.drop_zero]
            simp [htf]
          rw [parseBlock_produces hs (by simp) hn htf harrow, if_pos hb]
          have hentry : blockEntry b =
              ⟨n, pyStrip l1, r :: rs, parse_time (String.mk a),
                parse_time (String.mk bb)⟩ := by
            unfold blockEntry
            rw [hs]
            simp only [List.headD_cons, List.getD_cons_succ, List.getD_cons_zero,
              List.drop_succ_cons, List.drop_zero, hn, harrow]
            rfl
          rw [hentry]

theorem filterMap_blocks :
    ∀ {bs : List (List String)}, (∀ b ∈ bs, blockWellFormed b = true) →
      bs.filterMap parseBlock = (bs.filter blockHasText).map blockEntry
  | [], _ => rfl
  | b :: bs, h => by
    rw [List.filterMap_cons, List.filter_cons,
      filterMap_blocks (fun x hx => h x (List.mem_cons_of_mem _ hx)),
      parseBlock_wf_spec (h b (by simp))]
    by_cases hb : blockHasText b
    · rw [if_pos hb, if_pos (by simpa using hb)]
      rfl
    · rw [if_neg hb, if_neg (by simpa using hb)]

/-! ## The claims -/

/-- C1 counterexample: on `docNoJunk` (entries numbered 5 and 7, nothing
flagged) the end-to-end pipeline writes the original numbers 5 and 7, not
`1..n`; the first line written to the cleaned file is `"5"`. -/
theorem C1_counterexample :
    numbersOf (cleanedEntries JUNK_PATTERNS (SRTFile.parse docNoJunk)) = [5, 7] ∧
    numbersOf (cleanedEntries JUNK_PATTERNS (SRTFile.parse docNoJunk)) ≠
      (List.range (cleanedEntries JUNK_PATTERNS (SRTFile.parse docNoJunk)).length).map
        (fun k : Nat => 1 + (k : Int)) ∧
    (cleanedOutputLines JUNK_PATTERNS (SRTFile.parse docNoJunk)).headD "" = "5" :=
  ⟨by decide, by decide, by decide⟩

/-- C1 (amended): when at least one entry is flagged, the entries written by
`clean_srt_file` carry the sequence numbers `1..n` with no gaps; when no
entry is flagged, `save_without_changes` writes the parsed entries with
their original numbering (no renumbering happens). -/
theorem C1_renumbering (pats : List RegexPat) (entries : List SubtitleDict) :
    (find_phony_subtitles pats entries = [] →
      cleanedEntries pats entries = entries) ∧
    (find_phony_subtitles pats entries ≠ [] →
      numbersOf (cleanedEntries pats entries) =
        (List.range (cleanedEntries pats entries).length).map
          (fun k : Nat => 1 + (k : Int))) := by
  constructor
  · intro h
    simp [cleanedEntries, h]
  · intro h
    unfold cleanedEntries
    rw [if_neg (by simpa using h), remove_junk_eq h]
    show numbersOf (renumberFrom 1 _) = _
    rw [renumberFrom_numbers, renumberFrom_length]

/-- C2 counterexample: with the empty flagged subset,
`remove_junk_subtitles` returns no survivors at all, although the entries
not in the flagged subset are all of `[subA]`. -/
theorem C2_counterexample :
    (remove_junk_subtitles [subA] []).subtitles_sans_bad_output = [] ∧
    [subA].filter (fun s => !(decide (s ∈ ([] : List SubtitleDict)))) = [subA] :=
  ⟨by decide, by decide⟩

/-- C2 (amended): for every NON-EMPTY flagged subset, the survivors are
exactly the entries not (value-)equal to a flagged one, in original
relative order (equal up to the renumbered `number` field), renumbered
contiguously from 1; the removed count is the flagged count.  For the empty
flagged subset the early return yields no survivors. -/
theorem C2_remove_junk (subs phony : List SubtitleDict) (h : phony ≠ []) :
    (remove_junk_subtitles subs phony).removed_count = phony.length ∧
    ((remove_junk_subtitles subs phony).subtitles_sans_bad_output).map eraseNumber =
      (subs.filter (fun s => !(decide (s ∈ phony)))).map eraseNumber ∧
    numbersOf ((remove_junk_subtitles subs phony).subtitles_sans_bad_output) =
      (List.range
        ((remove_junk_subtitles subs phony).subtitles_sans_bad_output).length).map
        (fun k : Nat => 1 + (k : Int)) := by
  rw [remove_junk_eq h]
  refine ⟨rfl, renumberFrom_eraseNumber _ 1, ?_⟩
  show numbersOf (renumberFrom 1 _) = _
  rw [renumberFrom_numbers, renumberFrom_length]

theorem C2_witness :
    (remove_junk_subtitles [subA, subB] [subB]).removed_count = [subB].length ∧
    ((remove_junk_subtitles [subA, subB] [subB]).subtitles_sans_bad_output).map
        eraseNumber =
      ([subA, subB].filter (fun s => !(decide (s ∈ [subB])))).map eraseNumber ∧
    numbersOf ((remove_junk_subtitles [subA, subB] [subB]).subtitles_sans_bad_output) =
      (List.range
        ((remove_junk_subtitles [subA, subB] [subB]).subtitles_sans_bad_output).length).map
        (fun k : Nat => 1 + (k : Int)) :=
  C2_remove_junk [subA, subB] [subB] (by decide)

/-- C3 counterexample: a 3-line block whose first line parses as an integer
and whose text is non-blank is nevertheless skipped (no entry) because its
timing line lacks the `" --> "` separator: the `IndexError` of
`timestamp.split(' --> ')[1]` is caught by the block-level handler. -/
theorem C3_counterexample :
    parseBlock ["1", "badtiming", "hello"] = none ∧
    pyInt? "1" = some 1 ∧ isBlank "hello" = false :=
  ⟨by decide, by decide, by decide⟩

/-- C3 (amended): once the timing line does split on `" --> "` (and the
block has its 3 stripped lines, an integer first line and non-blank text),
no failure inside `_parse_time` can skip the block: the entry is produced
with each unparsable time bound defaulting to `0.0` (the `getD 0`). -/
theorem C3_time_default {b : List String} {l0 l1 : String}
    {rest : List String} {n : Int} {a bb : List Char} {more : List (List Char)}
    (hs : stripBlock b = l0 :: l1 :: rest) (hrest : rest ≠ [])
    (hn : pyInt? l0 = some n) (htext : rest.all isBlank = false)
    (harrow : pySplit " --> ".data (pyStrip l1).data = a :: bb :: more) :
    parseBlock b = some ⟨n, pyStrip l1, rest,
      (timeVal? (String.mk a)).getD 0, (timeVal? (String.mk bb)).getD 0⟩ :=
  parseBlock_produces hs hrest hn htext harrow

theorem C3_witness :
    parseBlock ["7", "zz --> yy", "bonjour"] =
      some ⟨7, "zz --> yy", ["bonjour"],
        (timeVal? (String.mk "zz".data)).getD 0,
        (timeVal? (String.mk "yy".data)).getD 0⟩ :=
  @C3_time_default ["7", "zz --> yy", "bonjour"] "7" "zz --> yy" ["bonjour"] 7
    "zz".data "yy".data [] (by decide) (by decide) (by decide) (by decide)
    (by decide)

/-- C4: `find_phony_subtitles` returns exactly the subsequence of entries
whose lowercased, stripped text matches at least one pattern under
case-insensitive regex substring search - the filter of the entry sequence
by the any-pattern test, so flagged entries come in source document order
and each flagged occurrence appears exactly once. -/
theorem C4_classifier_filter (pats : List RegexPat) (subs : List SubtitleDict) :
    find_phony_subtitles pats subs =
      subs.filter (fun s =>
        pats.any (fun p => reSearch p (pyStrip (pyLower (textJoined s))))) :=
  find_phony_eq_filter pats subs

/-- C5: serializing the entries that survive the end-to-end clean (or all
parsed entries when nothing is flagged) and re-parsing the resulting
document yields, entry for entry, the same timing line and the same text,
verbatim. -/
theorem C5_round_trip (pats : List RegexPat) (doc : List String) :
    (SRTFile.parse (prepare_cleaned_content_for_write
        (cleanedEntries pats (SRTFile.parse doc)))).map tsText =
      (cleanedEntries pats (SRTFile.parse doc)).map tsText :=
  parse_prepare (fun _ he => cleanedEntries_inv he)

/-- C6: after `remove_junk_subtitles` removes the entries flagged by
`find_phony_subtitles`, running the classifier again on the survivors flags
zero entries. -/
theorem C6_classifier_idempotent (pats : List RegexPat) (subs : List SubtitleDict) :
    find_phony_subtitles pats
      ((remove_junk_subtitles subs
        (find_phony_subtitles pats subs)).subtitles_sans_bad_output) = [] :=
  find_phony_cleaned_nil pats subs

/-- C7: on a document all of whose blocks are well-formed, the parser
produces exactly one entry per block with non-empty text, in source order;
blocks whose text is empty or whitespace-only yield no entry. -/
theorem C7_parse_count (doc : List String)
    (h : ∀ b ∈ splitBlocks doc, blockWellFormed b = true) :
    SRTFile.parse doc =
      ((splitBlocks doc).filter blockHasText).map blockEntry :=
  filterMap_blocks h

theorem C7_witness :
    SRTFile.parse docWF =
      ((splitBlocks docWF).filter blockHasText).map blockEntry :=
  C7_parse_count docWF (by decide)

/-- C8: `make_cleaned_srt_filename` is a pure function of the base name: if
the base name contains `"-input"`, everything from the first occurrence on
is dropped and `" - cleaned.srt"` is appended; otherwise the suffix is
appended to the whole base name. -/
theorem C8_cleaned_filename (b : String) (p r : List Char) :
    (containsSeq "-input".data b.data = false →
      make_cleaned_srt_filename b = b ++ " - cleaned.srt") ∧
    (b.data = p ++ ("-input".data ++ r) →
      containsSeq "-input".data ((p ++ "-input".data).dropLast) = false →
      make_cleaned_srt_filename b = String.mk p ++ " - cleaned.srt") := by
  constructor
  · intro h
    unfold make_cleaned_srt_filename
    rw [if_neg (by simp [h])]
  · intro hdec hmin
    have hcontains : containsSeq "-input".data b.data = true := by
      rw [hdec]
      exact containsSeq_append (by decide) p r
    unfold make_cleaned_srt_filename
    rw [if_pos hcontains]
    unfold swap
    rw [hdec, pySplit_headD_of_min (by decide) r hmin]

/-- C9: a missing input file, or one whose path does not end in `.srt`, is
answered by the empty result dict with no success flag, and no cleaned file
is written. -/
theorem C9_guard_failure (fileExists : Bool) (path : String) (doc : List String)
    (h : fileExists = false ∨ pyEndsWith path ".srt" = false) :
    clean_srt_file fileExists path doc = (CleanResult.emptyRes, none) ∧
    successFlag (clean_srt_file fileExists path doc).1 = false := by
  have hres : clean_srt_file fileExists path doc = (CleanResult.emptyRes, none) := by
    unfold clean_srt_file
    rcases h with h | h
    · subst h
      rfl
    · by_cases hf : fileExists
      · subst hf
        rw [h]
        rfl
      · simp at hf
        subst hf
        rfl
  exact ⟨hres, by rw [hres]; rfl⟩

theorem C9_witness :
    clean_srt_file true "notes.txt"
        ["1", "00:00:00,000 --> 00:00:01,000", "hello"] =
      (CleanResult.emptyRes, none) ∧
    successFlag (clean_srt_file true "notes.txt"
        ["1", "00:00:00,000 --> 00:00:01,000", "hello"]).1 = false :=
  C9_guard_failure true "notes.txt"
    ["1", "00:00:00,000 --> 00:00:01,000", "hello"] (Or.inr (by decide))

/-- C10: the classifier reads but never writes the `SRTFile` state: run as
a state transformer, `find_phony_subtitles` returns the state unchanged
(same subtitles, same fields, same order) together with the same flagged
list the pure classifier computes. -/
theorem C10_classifier_pure (pats : List RegexPat) (st : SRTFileSt) :
    (find_phony_subtitles_st pats st).2 = st ∧
    (find_phony_subtitles_st pats st).1 = find_phony_subtitles pats st.subtitles := by
  unfold find_phony_subtitles_st
  rw [findPhonyGo_spec]
  exact ⟨rfl, rfl⟩
